import Mathlib

/-!
Verification of the CSV parsing and upload-orchestration core of the
csv-wizard-backend repository.

The executable definitions below are a shallow embedding of the JavaScript
source.  Text is modelled as `List Char`; JavaScript strings' `split`,
`trim`, regular-expression replaces and the hand-rolled character scans are
translated into structurally recursive Lean functions.  The main sources are:

* `src/api/csv-api.js` — `parseCSVContent`, `detectDelimiter`, `parseCSVLine`,
  the sanitization block of `handleProcessCSV` / `handleCompleteUpload`, and
  `uploadToGoogleSheets`;
* `src/unnamed/part_007` — an earlier variant of `parseCSVContent` whose
  preview total-row reporting differs from `csv-api.js`;
* `src/unnamed/part_000` and `src/unnamed/part_005` — the create-tab handlers.
-/

namespace CsvWizard

/-! ## Character classes and trimming (JavaScript semantics)

`jsWs` models the character class matched by JavaScript `\s` and removed by
`String.prototype.trim` (ASCII whitespace plus the Unicode space separators
and the BOM). -/

def jsWsChars : List Char :=
  [' ', '\t', '\n', '\r', '\x0b', '\x0c',
   '\u00a0', '\u1680', '\u2000', '\u2001', '\u2002', '\u2003', '\u2004',
   '\u2005', '\u2006', '\u2007', '\u2008', '\u2009', '\u200a',
   '\u2028', '\u2029', '\u202f', '\u205f', '\u3000', '\ufeff']

def jsWs (c : Char) : Bool := jsWsChars.contains c

/-- Embedding of JavaScript `String.prototype.trim`. -/
def trimL (l : List Char) : List Char :=
  ((l.dropWhile jsWs).reverse.dropWhile jsWs).reverse

/-! ## Line tokenizer — `parseCSVLine` (src/api/csv-api.js lines 147-173)

The JavaScript loop keeps an accumulator of finished fields (`result`), the
current field buffer (`current`) and an `inQuotes` flag, reading the line one
character at a time; on `"` inside quotes followed by another `"` it appends a
literal quote and skips a character (`i++`). -/

def parseCSVLineAux (d : Char) :
    List (List Char) → List Char → Bool → List Char → List (List Char)
  | acc, cur, _, [] => acc ++ [trimL cur]
  | acc, cur, true, '"' :: '"' :: rest => parseCSVLineAux d acc (cur ++ ['"']) true rest
  | acc, cur, inQ, c :: rest =>
    if c = '"' then parseCSVLineAux d acc cur (!inQ) rest
    else if c = d ∧ inQ = false then
      parseCSVLineAux d (acc ++ [trimL cur]) [] inQ rest
    else parseCSVLineAux d acc (cur ++ [c]) inQ rest

def parseCSVLine (d : Char) (line : List Char) : List (List Char) :=
  parseCSVLineAux d [] [] false line

/-! ## Delimiter detector — `detectDelimiter` (src/api/csv-api.js lines 127-145)

The JavaScript counts literal occurrences of each of `, ; \t |` in the first
line (`csvContent.split('\n')[0]`) and keeps the first candidate that strictly
beats the running maximum (initially `','` with count 0). -/

def firstLine (content : List Char) : List Char :=
  content.takeWhile (fun c => !(c == '\n'))

def delimCandidates : List Char := [',', ';', '\t', '|']

def detectStep (fl : List Char) (st : Char × Nat) (d : Char) : Char × Nat :=
  let cnt := fl.count d
  if st.2 < cnt then (d, cnt) else st

def detectDelimiter (content : List Char) : Char :=
  (delimCandidates.foldl (detectStep (firstLine content)) ((','), 0)).1

/-! ## CSV parser — `parseCSVContent` (src/api/csv-api.js lines 10-125)

`ParseOptions` models the JavaScript `options` object: absent properties are
`none`.  The source applies `|| ','`, `|| 'use'`, `!== false`, `!== false` and
`|| false` defaults respectively. -/

inductive DelimSetting where
  | chr (c : Char)
  | auto
deriving DecidableEq

structure ParseOptions where
  delimiter : Option DelimSetting
  headerHandling : Option String
  trimWhitespace : Option Bool
  skipEmptyRows : Option Bool
  isPreview : Bool
deriving DecidableEq

/-- Embedding of JavaScript `csvContent.split('\n')`. -/
def splitLines : List Char → List (List Char)
  | [] => [[]]
  | c :: r =>
    if c = '\n' then [] :: splitLines r
    else
      match splitLines r with
      | [] => [[c]]
      | l :: ls => (c :: l) :: ls

/-- Resolution of the `'auto'` delimiter (csv-api.js lines 19-22); a concrete
delimiter character is passed through unchanged. -/
def resolvedDelimiter (content : List Char) (opts : ParseOptions) : Char :=
  match opts.delimiter.getD (DelimSetting.chr ',') with
  | DelimSetting.chr c => c
  | DelimSetting.auto => detectDelimiter content

/-- Lines after splitting, optional per-line trimming, and optional removal of
zero-length lines (csv-api.js lines 24-30). -/
def retainedLines (content : List Char) (opts : ParseOptions) : List (List Char) :=
  let lines0 := splitLines content
  let lines1 := if opts.trimWhitespace.getD true then lines0.map trimL else lines0
  if opts.skipEmptyRows.getD true then lines1.filter (fun l => !l.isEmpty) else lines1

/-- Preview restriction: `lines.slice(0, maxPreviewRows + 1)` with
`maxPreviewRows = 10` (csv-api.js lines 16-17 and 33). -/
def processLines (content : List Char) (opts : ParseOptions) : List (List Char) :=
  if opts.isPreview then (retainedLines content opts).take 11
  else retainedLines content opts

/-- The tokenized rows; the loop at csv-api.js lines 36-42 keeps only rows with
at least one field. -/
def parsedRows (content : List Char) (opts : ParseOptions) : List (List (List Char)) :=
  ((processLines content opts).map
      (parseCSVLine (resolvedDelimiter content opts))).filter (fun r => !r.isEmpty)

/-- Header extraction (csv-api.js lines 44-66): `headers` is set only in
`'use'` mode with a non-empty row list (`rows[0]`). -/
def headersOf (content : List Char) (opts : ParseOptions) : Option (List (List Char)) :=
  if opts.headerHandling.getD "use" = "use" ∧ parsedRows content opts ≠ [] then
    (parsedRows content opts).head?
  else none

/-- Data rows (csv-api.js lines 44-66): both `'use'` and `'skip'` drop the
first row when one exists (`rows.slice(1)`); anything else keeps every row. -/
def dataRowsOf (content : List Char) (opts : ParseOptions) : List (List (List Char)) :=
  if opts.headerHandling.getD "use" = "use" ∧ parsedRows content opts ≠ [] then
    (parsedRows content opts).tail
  else if opts.headerHandling.getD "use" = "skip" ∧ parsedRows content opts ≠ [] then
    (parsedRows content opts).tail
  else parsedRows content opts

/-- `sheetData` assembly (csv-api.js lines 73-87). -/
def sheetDataOf (content : List Char) (opts : ParseOptions) : List (List (List Char)) :=
  match headersOf content opts with
  | some h => if 0 < h.length then h :: dataRowsOf content opts else dataRowsOf content opts
  | none => dataRowsOf content opts

structure ParseResult where
  success : Bool
  headers : Option (List (List Char))
  rows : List (List (List Char))
  sheetData : List (List (List Char))
  totalRows : Int
  delimiter : Char
  originalRowCount : Nat
  columnCount : Nat
  hasHeaders : Bool
  previewRowCount : Option Nat
deriving DecidableEq

/-- The result object returned at csv-api.js lines 100-113.  The local
`totalDataRows` computed at line 70 is dead in this variant: the returned
`totalRows` is `dataRows.length`. -/
def parseCSVContent (content : List Char) (opts : ParseOptions) : ParseResult :=
  { success := true
    headers := headersOf content opts
    rows := dataRowsOf content opts
    sheetData := sheetDataOf content opts
    totalRows := ((dataRowsOf content opts).length : Int)
    delimiter := resolvedDelimiter content opts
    originalRowCount := (retainedLines content opts).length
    columnCount :=
      match headersOf content opts with
      | some h => h.length
      | none =>
        match dataRowsOf content opts with
        | r :: _ => r.length
        | [] => 0
    hasHeaders := opts.headerHandling.getD "use" = "use"
    previewRowCount :=
      if opts.isPreview then some (dataRowsOf content opts).length else none }

/-! ### The `part_007` variant of `parseCSVContent`

`src/unnamed/part_007` lines 10-79 differ from `csv-api.js` in three ways:
only the `'use'` header mode is implemented (no `'skip'` branch), the `rows`
field is all parsed rows when not previewing, and — the part claim C4 is
about — previewing reports `totalRows` as `totalDataRows`, computed from the
unrestricted line count (`allRowCount - 1` in `'use'` mode, line 53). -/

def headersV7 (content : List Char) (opts : ParseOptions) : Option (List (List Char)) :=
  if opts.headerHandling.getD "use" = "use" ∧ parsedRows content opts ≠ [] then
    (parsedRows content opts).head?
  else none

def dataRowsV7 (content : List Char) (opts : ParseOptions) : List (List (List Char)) :=
  if opts.headerHandling.getD "use" = "use" ∧ parsedRows content opts ≠ [] then
    (parsedRows content opts).tail
  else parsedRows content opts

structure ParseResultV7 where
  success : Bool
  headers : Option (List (List Char))
  rows : List (List (List Char))
  totalRows : Int
  delimiter : Char
  originalRowCount : Nat
  hasHeaders : Bool
deriving DecidableEq

def parseCSVContentV7 (content : List Char) (opts : ParseOptions) : ParseResultV7 :=
  let allRowCount := (retainedLines content opts).length
  let totalDataRows : Int :=
    if opts.headerHandling.getD "use" = "use" then (allRowCount : Int) - 1
    else (allRowCount : Int)
  { success := true
    headers := headersV7 content opts
    rows := if opts.isPreview then dataRowsV7 content opts else parsedRows content opts
    totalRows :=
      if opts.isPreview then totalDataRows else ((dataRowsV7 content opts).length : Int)
    delimiter := resolvedDelimiter content opts
    originalRowCount := allRowCount
    hasHeaders := opts.headerHandling.getD "use" = "use" }

def defaultOpts : ParseOptions := ⟨none, none, none, none, false⟩

/-! ## Content sanitizer (src/api/csv-api.js lines 275-284 and 381-390)

The source applies three regular-expression replaces in order:

1. `replace(/file:\/\/\/[^\s\n\r,]*\/g, '')` — drop every `file:///` token up
   to the next whitespace or comma;
2. `replace(/^https?:\/\/[^\s\n\r,]*$/gm, '')` — blank every line that is
   entirely a bare `http(s)://` URL (with the `m` flag, `^`/`$` anchor at
   every line-terminator boundary);
3. `replace(/\n\s*\n/g, '\n')` followed by `.trim()`.

Each is embedded as a left-to-right scanner.  The scanners consume at least
one character per step, so they recurse on an explicit fuel initialized to
the input length. -/

def stopChar (c : Char) : Bool := jsWs c || c == ','

def fileMarker : List Char := ['f', 'i', 'l', 'e', ':', '/', '/', '/']

def rmFileF : Nat → List Char → List Char
  | 0, l => l
  | _ + 1, [] => []
  | n + 1, c :: r =>
    if fileMarker.isPrefixOf (c :: r) then
      rmFileF n ((r.drop 7).dropWhile (fun x => !stopChar x))
    else c :: rmFileF n r

def rmFile (l : List Char) : List Char := rmFileF l.length l

/-- Line terminators at which the JavaScript `m`-flag anchors `^` and `$`
match. -/
def lineTerm (c : Char) : Bool :=
  c == '\n' || c == '\r' || c == '\u2028' || c == '\u2029'

def httpMarker : List Char := ['h', 't', 't', 'p', ':', '/', '/']

def httpsMarker : List Char := ['h', 't', 't', 'p', 's', ':', '/', '/']

/-- Whether a line (a maximal terminator-free segment) matches
`^https?:\/\/[^\s\n\r,]*$` in full. -/
def isBareUrl (l : List Char) : Bool :=
  (httpMarker.isPrefixOf l && (l.drop 7).all (fun c => !stopChar c)) ||
  (httpsMarker.isPrefixOf l && (l.drop 8).all (fun c => !stopChar c))

def rmUrlF : Nat → List Char → List Char
  | 0, l => l
  | _ + 1, [] => []
  | n + 1, c :: r0 =>
    let seg := (c :: r0).takeWhile (fun x => !lineTerm x)
    match (c :: r0).drop seg.length with
    | [] => if isBareUrl seg then [] else seg
    | t :: r => (if isBareUrl seg then [] else seg) ++ t :: rmUrlF n r

def rmUrl (l : List Char) : List Char := rmUrlF l.length l

/-- Index of the last `'\n'` within a list, if any. -/
def lastNl (w : List Char) : Option Nat :=
  match w.reverse.findIdx? (fun c => c == '\n') with
  | none => none
  | some j => some (w.length - 1 - j)

/-- Scanner for `replace(/\n\s*\n/g, '\n')`: at each `'\n'`, the greedy `\s*`
extends to the last `'\n'` of the maximal whitespace run that follows, the
whole match is replaced by a single `'\n'`, and scanning resumes after it. -/
def collapseBlankF : Nat → List Char → List Char
  | 0, l => l
  | _ + 1, [] => []
  | n + 1, c :: r =>
    if c = '\n' then
      match lastNl (r.takeWhile jsWs) with
      | some i => '\n' :: collapseBlankF n (r.drop (i + 1))
      | none => c :: collapseBlankF n r
    else c :: collapseBlankF n r

def collapseBlank (l : List Char) : List Char := collapseBlankF l.length l

/-- The full sanitization block: the three replaces then `.trim()`. -/
def sanitizeCSVContent (l : List Char) : List Char :=
  trimL (collapseBlank (rmUrl (rmFile l)))

/-! ## Sheet writer — `uploadToGoogleSheets` (src/api/csv-api.js lines 518-644)

The remote calls are modelled by an environment carrying the HTTP status each
fetch would return.  `Response.ok` is status in [200, 300).  The `clear` call
issued in replace mode ignores its response entirely (lines 569-578), so its
status does not influence the result. -/

def httpOk (s : Nat) : Bool := decide (200 ≤ s ∧ s < 300)

structure UploadEnv where
  userinfoStatus : Nat
  spreadsheetStatus : Nat
  clearStatus : Nat
  writeStatus : Nat
  writeErrorText : String
deriving DecidableEq

structure UploadResult where
  success : Bool
  authExpired : Bool
  error : Option String
  rowsUploaded : Nat
deriving DecidableEq

def uploadToGoogleSheets (rows : List (List (List Char))) (env : UploadEnv) :
    UploadResult :=
  if rows.isEmpty then
    { success := false, authExpired := false
      error := some ("No data to upload"), rowsUploaded := 0 }
  else if !httpOk env.userinfoStatus then
    { success := false, authExpired := true
      error := some ("Google authentication expired"), rowsUploaded := 0 }
  else if !httpOk env.spreadsheetStatus then
    { success := false, authExpired := false
      error := some ("Cannot access spreadsheet. Check permissions.")
      rowsUploaded := 0 }
  else if !httpOk env.writeStatus then
    { success := false, authExpired := false
      error := some ("Upload failed: " ++ toString env.writeStatus ++ " - " ++
        env.writeErrorText)
      rowsUploaded := 0 }
  else
    { success := true, authExpired := false, error := none
      rowsUploaded := rows.length }

/-- How `handleCompleteUpload` maps a failed writer result to an HTTP reply
(csv-api.js lines 447-460): `(status, needsReauth)`. -/
def completeUploadRespond (u : UploadResult) : Nat × Bool :=
  if u.success then ((200), false)
  else if u.authExpired then ((401), true)
  else ((400), false)

/-- The empty-data guard of `handleCompleteUpload` (csv-api.js lines 421-426):
the 400 "No data found in CSV file" reply is issued by the upload handler, on
a successful parse whose `sheetData` is empty. -/
def completeUploadNoData (r : ParseResult) : Option (Nat × String) :=
  if r.sheetData.isEmpty then some ((400), "No data found in CSV file") else none

/-! ## Create-tab handler (src/unnamed/part_000 lines 53-217)

`src/unnamed/part_005` lines 988-1131 is the same logic.  The handler checks
for an existing tab with the same lower-cased title and answers 409 before
issuing the creation call; the creation request always carries
`gridProperties` of 1000 rows by 26 columns. -/

structure CreateTabEnv where
  listOk : Bool
  existingTitles : List (List Char)
  createStatus : Nat
  createSaysExists : Bool
deriving DecidableEq

structure GridSize where
  rowCount : Nat
  columnCount : Nat
deriving DecidableEq

structure CreateTabRes where
  status : Nat
  needsReauth : Bool
  createAttempted : Bool
  requestedGrid : Option GridSize
deriving DecidableEq

def lowerL (l : List Char) : List Char := l.map Char.toLower

def handleCreateTab (tabName : List Char) (env : CreateTabEnv) : CreateTabRes :=
  let finalTabName := trimL tabName
  if finalTabName.isEmpty then
    { status := 400, needsReauth := false, createAttempted := false
      requestedGrid := none }
  else if env.listOk && env.existingTitles.any (fun t => lowerL t == lowerL finalTabName) then
    { status := 409, needsReauth := false, createAttempted := false
      requestedGrid := none }
  else if httpOk env.createStatus then
    { status := 200, needsReauth := false, createAttempted := true
      requestedGrid := some ⟨1000, 26⟩ }
  else if env.createStatus = 401 ∨ env.createStatus = 403 then
    { status := 401, needsReauth := true, createAttempted := true
      requestedGrid := some ⟨1000, 26⟩ }
  else if env.createStatus = 404 then
    { status := 404, needsReauth := false, createAttempted := true
      requestedGrid := some ⟨1000, 26⟩ }
  else if env.createSaysExists then
    { status := 409, needsReauth := false, createAttempted := true
      requestedGrid := some ⟨1000, 26⟩ }
  else
    { status := 500, needsReauth := false, createAttempted := true
      requestedGrid := some ⟨1000, 26⟩ }

/-- The sizing contract claimed by the specification for
CREATE_TAB_THEN_WRITE: the created grid holds `data` and has a floor of
1000 rows by 26 columns.  Stated from the spec's words, for comparison with
the grid the handler actually requests. -/
def gridFitsData (g : GridSize) (data : List (List (List Char))) : Prop :=
  data.length ≤ g.rowCount ∧ (data.headD []).length ≤ g.columnCount ∧
    1000 ≤ g.rowCount ∧ 26 ≤ g.columnCount

/-! ## Specification-side counting and searching helpers

These are stated from the claims' vocabulary, independently of the scanners:
a position is "outside quotes" when an even number of quote characters
precedes it, and a text "has a marker" when some suffix starts with it. -/

/-- Number of occurrences of the delimiter at positions preceded by an even
number of `'"'` characters; `inside` is the running parity. -/
def countDelimOutsideAux (d : Char) : Bool → List Char → Nat
  | _, [] => 0
  | inside, c :: r =>
    (if c = d ∧ inside = false then 1 else 0) +
      countDelimOutsideAux d (if c = '"' then !inside else inside) r

def countDelimOutside (d : Char) (l : List Char) : Nat :=
  countDelimOutsideAux d false l

/-- Whether some suffix of `l` starts with `fileMarker`. -/
def hasMarker (l : List Char) : Bool :=
  l.tails.any (fun t => fileMarker.isPrefixOf t)

/-- Position of a delimiter candidate in the detector's fixed iteration
order. -/
def candIdx (c : Char) : Nat :=
  if c = ',' then 0 else if c = ';' then 1 else if c = '\t' then 2
  else if c = '|' then 3 else 4

/-! ## Tokenizer lemmas -/

theorem aux_nil (d : Char) (acc : List (List Char)) (cur : List Char) (inQ : Bool) :
    parseCSVLineAux d acc cur inQ [] = acc ++ [trimL cur] := by
  simp [parseCSVLineAux]

theorem aux_esc (d : Char) (acc : List (List Char)) (cur rest : List Char) :
    parseCSVLineAux d acc cur true ('"' :: '"' :: rest) =
      parseCSVLineAux d acc (cur ++ ['"']) true rest := by
  simp [parseCSVLineAux]

theorem aux_enter (d : Char) (acc : List (List Char)) (cur rest : List Char) :
    parseCSVLineAux d acc cur false ('"' :: rest) =
      parseCSVLineAux d acc cur true rest := by
  simp [parseCSVLineAux]

theorem aux_exit (d : Char) (acc : List (List Char)) (cur rest : List Char)
    (h : ∀ r2, rest ≠ '"' :: r2) :
    parseCSVLineAux d acc cur true ('"' :: rest) =
      parseCSVLineAux d acc cur false rest := by
  match rest, h with
  | [], _ => simp [parseCSVLineAux]
  | c2 :: r2, h =>
    have hc2 : c2 ≠ '"' := by
      intro hh
      exact h r2 (by rw [hh])
    simp [parseCSVLineAux, hc2]

theorem aux_delim (d : Char) (acc : List (List Char)) (cur rest : List Char)
    (hd : d ≠ '"') :
    parseCSVLineAux d acc cur false (d :: rest) =
      parseCSVLineAux d (acc ++ [trimL cur]) [] false rest := by
  simp [parseCSVLineAux, hd]

theorem aux_app_true (d : Char) (acc : List (List Char)) (cur rest : List Char)
    (c : Char) (hc : c ≠ '"') :
    parseCSVLineAux d acc cur true (c :: rest) =
      parseCSVLineAux d acc (cur ++ [c]) true rest := by
  simp [parseCSVLineAux, hc]

theorem aux_app_false (d : Char) (acc : List (List Char)) (cur rest : List Char)
    (c : Char) (hc : c ≠ '"') (hcd : c ≠ d) :
    parseCSVLineAux d acc cur false (c :: rest) =
      parseCSVLineAux d acc (cur ++ [c]) false rest := by
  simp [parseCSVLineAux, hc, hcd]

/-- Field-count bookkeeping: the tokenizer emits one field per delimiter seen
outside quotes, plus the final buffer. -/
theorem aux_length (d : Char) (hd : d ≠ '"') :
    ∀ (n : Nat) (l : List Char), l.length ≤ n →
      ∀ (acc : List (List Char)) (cur : List Char) (inQ : Bool),
        (parseCSVLineAux d acc cur inQ l).length =
          acc.length + 1 + countDelimOutsideAux d inQ l := by
  intro n
  induction n with
  | zero =>
    intro l hl acc cur inQ
    have hnil : l = [] := List.length_eq_zero.mp (Nat.le_zero.mp hl)
    subst hnil
    simp [aux_nil, countDelimOutsideAux]
  | succ n ih =>
    intro l hl acc cur inQ
    match l with
    | [] => simp [aux_nil, countDelimOutsideAux]
    | c :: rest =>
      have hrest : rest.length ≤ n := by
        simp at hl
        omega
      by_cases hc : c = '"'
      · subst hc
        cases inQ with
        | false =>
          rw [aux_enter, ih rest hrest]
          simp [countDelimOutsideAux, hd.symm]
        | true =>
          cases rest with
          | nil =>
            rw [aux_exit _ _ _ _ (by intro r2 h; exact List.noConfusion h)]
            simp [aux_nil, countDelimOutsideAux]
          | cons c2 r2 =>
            by_cases hc2 : c2 = '"'
            · subst hc2
              have hr2 : r2.length ≤ n := by
                simp at hl
                omega
              rw [aux_esc, ih r2 hr2]
              simp [countDelimOutsideAux, hd.symm]
            · rw [aux_exit _ _ _ _ (by intro r h; injection h with h1 h2; exact hc2 h1)]
              rw [ih _ hrest]
              simp [countDelimOutsideAux, hd.symm]
      · cases inQ with
        | true =>
          rw [aux_app_true _ _ _ _ _ hc, ih rest hrest]
          simp [countDelimOutsideAux, hc]
        | false =>
          by_cases hcd : c = d
          · subst hcd
            rw [aux_delim _ _ _ _ hd, ih rest hrest]
            simp [countDelimOutsideAux, hc]
            omega
          · rw [aux_app_false _ _ _ _ _ hc hcd, ih rest hrest]
            simp [countDelimOutsideAux, hc, hcd]

/-- The tokenizer always extends the accumulator with at least one final
field, whatever the delimiter. -/
theorem aux_shape (d : Char) :
    ∀ (n : Nat) (l : List Char), l.length ≤ n →
      ∀ (acc : List (List Char)) (cur : List Char) (inQ : Bool),
        ∃ f : List (List Char),
          parseCSVLineAux d acc cur inQ l = acc ++ f ∧ f ≠ [] := by
  intro n
  induction n with
  | zero =>
    intro l hl acc cur inQ
    have hnil : l = [] := List.length_eq_zero.mp (Nat.le_zero.mp hl)
    subst hnil
    exact ⟨[trimL cur], aux_nil d acc cur inQ, by simp⟩
  | succ n ih =>
    intro l hl acc cur inQ
    match l with
    | [] => exact ⟨[trimL cur], aux_nil d acc cur inQ, by simp⟩
    | c :: rest =>
      have hrest : rest.length ≤ n := by
        simp at hl
        omega
      by_cases hc : c = '"'
      · subst hc
        cases inQ with
        | false =>
          rw [aux_enter]
          exact ih rest hrest acc cur true
        | true =>
          cases rest with
          | nil =>
            rw [aux_exit _ _ _ _ (by intro r2 h; exact List.noConfusion h)]
            exact ⟨[trimL cur], aux_nil d acc cur false, by simp⟩
          | cons c2 r2 =>
            by_cases hc2 : c2 = '"'
            · subst hc2
              have hr2 : r2.length ≤ n := by
                simp at hl
                omega
              rw [aux_esc]
              exact ih r2 hr2 acc (cur ++ ['"']) true
            · rw [aux_exit _ _ _ _ (by intro r h; injection h with h1 h2; exact hc2 h1)]
              exact ih _ hrest acc cur false
      · by_cases hsplit : c = d ∧ inQ = false
      -- delimiter outside quotes: a field is pushed onto the accumulator
        · obtain ⟨hcd, hinq⟩ := hsplit
          subst hcd
          subst hinq
          rw [aux_delim _ _ _ _ (fun h => hc h)]
          obtain ⟨f, hf, hne⟩ := ih rest hrest (acc ++ [trimL cur]) [] false
          exact ⟨[trimL cur] ++ f, by rw [hf, List.append_assoc], by simp⟩
        · cases inQ with
          | true =>
            rw [aux_app_true _ _ _ _ _ hc]
            exact ih rest hrest acc (cur ++ [c]) true
          | false =>
            have hcd : c ≠ d := fun h => hsplit ⟨h, rfl⟩
            rw [aux_app_false _ _ _ _ _ hc hcd]
            exact ih rest hrest acc (cur ++ [c]) false

/-- Running the tokenizer in quoted mode over quote-free characters only
accumulates them into the current field; delimiters do not split. -/
theorem aux_run_quoted (d : Char) :
    ∀ (a : List Char), (∀ c ∈ a, c ≠ '"') →
      ∀ (s : List Char) (acc : List (List Char)) (cur : List Char),
        parseCSVLineAux d acc cur true (a ++ s) =
          parseCSVLineAux d acc (cur ++ a) true s := by
  intro a
  induction a with
  | nil => simp
  | cons c a ih =>
    intro h s acc cur
    have hc : c ≠ '"' := h c (List.mem_cons_self c a)
    rw [List.cons_append, aux_app_true _ _ _ _ _ hc,
      ih (fun x hx => h x (List.mem_cons_of_mem c hx)) s acc (cur ++ [c])]
    simp

/-! ## Trimming lemmas -/

theorem dropWhile_head_false (p : Char → Bool) :
    ∀ (l : List Char) (c : Char), (l.dropWhile p).head? = some c → p c = false := by
  intro l
  induction l with
  | nil => intro c h; simp at h
  | cons a r ih =>
    intro c h
    by_cases ha : p a
    · rw [List.dropWhile_cons, if_pos ha] at h
      exact ih c h
    · rw [List.dropWhile_cons, if_neg ha] at h
      simp at h
      rw [← h]
      exact Bool.eq_false_iff.mpr ha

theorem dropWhile_eq_self_of_head (p : Char → Bool) (l : List Char)
    (h : ∀ c, l.head? = some c → p c = false) : l.dropWhile p = l := by
  cases l with
  | nil => rfl
  | cons a r =>
    have ha : p a = false := h a rfl
    simp [List.dropWhile_cons, ha]

theorem getLast?_of_suffix {l s : List Char} (h : s <:+ l) (hne : s ≠ []) :
    s.getLast? = l.getLast? := by
  obtain ⟨t, ht⟩ := h
  rw [← ht, List.getLast?_append_of_ne_nil _ hne]

theorem trimL_idem (x : List Char) : trimL (trimL x) = trimL x := by
  unfold trimL
  have h1 : ((x.dropWhile jsWs).reverse.dropWhile jsWs).reverse.dropWhile jsWs =
      ((x.dropWhile jsWs).reverse.dropWhile jsWs).reverse := by
    apply dropWhile_eq_self_of_head
    intro c hc
    rw [List.head?_reverse] at hc
    have hne : (x.dropWhile jsWs).reverse.dropWhile jsWs ≠ [] := by
      intro hnil
      rw [hnil] at hc
      simp at hc
    have hsuf := getLast?_of_suffix (List.dropWhile_suffix jsWs
      (l := (x.dropWhile jsWs).reverse)) hne
    rw [hsuf, List.getLast?_reverse] at hc
    exact dropWhile_head_false jsWs _ c hc
  rw [h1, List.reverse_reverse]
  have h2 : (x.dropWhile jsWs).reverse.dropWhile jsWs =
      ((x.dropWhile jsWs).reverse.dropWhile jsWs).dropWhile jsWs := by
    refine (dropWhile_eq_self_of_head jsWs _ ?_).symm
    intro c hc
    exact dropWhile_head_false jsWs _ c hc
  rw [← h2]

/-- Every field the tokenizer emits is already trimmed. -/
theorem aux_trimmed (d : Char) :
    ∀ (n : Nat) (l : List Char), l.length ≤ n →
      ∀ (acc : List (List Char)) (cur : List Char) (inQ : Bool),
        (∀ f ∈ acc, trimL f = f) →
        ∀ f ∈ parseCSVLineAux d acc cur inQ l, trimL f = f := by
  intro n
  induction n with
  | zero =>
    intro l hl acc cur inQ hacc f hf
    have hnil : l = [] := List.length_eq_zero.mp (Nat.le_zero.mp hl)
    subst hnil
    rw [aux_nil] at hf
    rcases List.mem_append.mp hf with h | h
    · exact hacc f h
    · simp at h
      rw [h]
      exact trimL_idem cur
  | succ n ih =>
    intro l hl acc cur inQ hacc f hf
    match l with
    | [] =>
      rw [aux_nil] at hf
      rcases List.mem_append.mp hf with h | h
      · exact hacc f h
      · simp at h
        rw [h]
        exact trimL_idem cur
    | c :: rest =>
      have hrest : rest.length ≤ n := by
        simp at hl
        omega
      by_cases hc : c = '"'
      · subst hc
        cases inQ with
        | false =>
          rw [aux_enter] at hf
          exact ih rest hrest acc cur true hacc f hf
        | true =>
          cases rest with
          | nil =>
            rw [aux_exit _ _ _ _ (by intro r2 h; exact List.noConfusion h), aux_nil] at hf
            rcases List.mem_append.mp hf with h | h
            · exact hacc f h
            · simp at h
              rw [h]
              exact trimL_idem cur
          | cons c2 r2 =>
            by_cases hc2 : c2 = '"'
            · subst hc2
              have hr2 : r2.length ≤ n := by
                simp at hl
                omega
              rw [aux_esc] at hf
              exact ih r2 hr2 acc (cur ++ ['"']) true hacc f hf
            · rw [aux_exit _ _ _ _
                (by intro r h; injection h with h1 h2; exact hc2 h1)] at hf
              exact ih _ hrest acc cur false hacc f hf
      · by_cases hsplit : c = d ∧ inQ = false
        · obtain ⟨hcd, hinq⟩ := hsplit
          subst hcd
          subst hinq
          rw [aux_delim _ _ _ _ (fun h => hc h)] at hf
          refine ih rest hrest _ [] false ?_ f hf
          intro g hg
          rcases List.mem_append.mp hg with h | h
          · exact hacc g h
          · simp at h
            rw [h]
            exact trimL_idem cur
        · cases inQ with
          | true =>
            rw [aux_app_true _ _ _ _ _ hc] at hf
            exact ih rest hrest acc (cur ++ [c]) true hacc f hf
          | false =>
            have hcd : c ≠ d := fun h => hsplit ⟨h, rfl⟩
            rw [aux_app_false _ _ _ _ _ hc hcd] at hf
            exact ih rest hrest acc (cur ++ [c]) false hacc f hf

/-! ## Claim C6 -/

theorem quoted_run_closed (d : Char) (a : List Char) (h : ∀ c ∈ a, c ≠ '"') :
    parseCSVLine d ('"' :: (a ++ ['"'])) = [trimL a] := by
  rw [parseCSVLine, aux_enter, aux_run_quoted d a h ['"'] [] []]
  rw [aux_exit _ _ _ _ (fun r2 h2 => List.noConfusion h2), aux_nil]
  simp

theorem quoted_run_open (d : Char) (a : List Char) (h : ∀ c ∈ a, c ≠ '"') :
    parseCSVLine d ('"' :: a) = [trimL a] := by
  rw [parseCSVLine, aux_enter, ← List.append_nil a,
    aux_run_quoted d a h [] [] [], aux_nil]
  simp

/-- C6: the tokenizer's left-to-right scan honours quoting: a delimiter
occurring while `inQuotes` is set does not split the field (a quote-free
quoted run comes back as exactly one field, delimiters included), a doubled
quote inside quotes contributes exactly one literal quote (the spec's
doubled-quote example), every emitted field is trimmed, and an unterminated
quote at end of line is tolerated — the line tokenizes exactly as if the
quote were closed at the end of the line. -/
theorem claim_C6_tokenizer_quoting :
    (∀ (d : Char) (a : List Char), (∀ c ∈ a, c ≠ '"') →
        parseCSVLine d ('"' :: (a ++ ['"'])) = [trimL a]) ∧
    parseCSVLine ',' ("\"he said \"\"hi\"\"\",ok".toList) =
      ["he said \"hi\"".toList, "ok".toList] ∧
    (∀ (d : Char) (line f : List Char), f ∈ parseCSVLine d line → trimL f = f) ∧
    (∀ (d : Char) (a : List Char), (∀ c ∈ a, c ≠ '"') →
        parseCSVLine d ('"' :: a) = parseCSVLine d ('"' :: (a ++ ['"']))) := by
  refine ⟨quoted_run_closed, by decide, ?_, ?_⟩
  · intro d line f hf
    exact aux_trimmed d line.length line le_rfl [] [] false (by simp) f hf
  · intro d a h
    rw [quoted_run_closed d a h, quoted_run_open d a h]

theorem claim_C6_witness :
    parseCSVLine ',' ('"' :: ("b,c".toList ++ ['"'])) = [trimL ("b,c".toList)] ∧
    trimL ("ok".toList) = "ok".toList ∧
    parseCSVLine ',' ('"' :: "b,c".toList) =
      parseCSVLine ',' ('"' :: ("b,c".toList ++ ['"'])) :=
  ⟨claim_C6_tokenizer_quoting.1 ',' ("b,c".toList) (by decide),
   claim_C6_tokenizer_quoting.2.2.1 ',' ("ok".toList) ("ok".toList) (by decide),
   claim_C6_tokenizer_quoting.2.2.2 ',' ("b,c".toList) (by decide)⟩

/-! ## Claim C7 -/

/-- C7: for every raw line with correctly paired quotes (an even number of
quote characters) and every non-quote delimiter, the number of fields the
tokenizer outputs equals the number of delimiter occurrences outside quoted
regions plus one; in particular tokenizing the spec's example line yields
exactly three fields. -/
theorem claim_C7_field_count (d : Char) (line : List Char)
    (hpaired : line.count '"' % 2 = 0) (hd : d ≠ '"') :
    (parseCSVLine d line).length = countDelimOutside d line + 1 ∧
    parseCSVLine ',' ("a,\"b,c\",d".toList) =
      ["a".toList, "b,c".toList, "d".toList] := by
  constructor
  · rw [parseCSVLine, aux_length d hd line.length line le_rfl [] [] false]
    simp [countDelimOutside]
    omega
  · decide

theorem claim_C7_witness :
    (parseCSVLine ',' ("a,\"b,c\",d".toList)).length =
      countDelimOutside ',' ("a,\"b,c\",d".toList) + 1 :=
  (claim_C7_field_count ',' ("a,\"b,c\",d".toList) (by decide) (by decide)).1

/-! ## Claim C10 -/

/-- C10: for every input line (the empty line included) and every delimiter
the tokenizer returns at least one field — the empty line yields exactly one
empty field — so the parser's step that drops zero-length field lists never
drops anything and every retained line contributes exactly one parsed row. -/
theorem claim_C10_tokenizer_total :
    (∀ (d : Char) (line : List Char), 1 ≤ (parseCSVLine d line).length) ∧
    (∀ d : Char, parseCSVLine d [] = [[]]) ∧
    (∀ (content : List Char) (opts : ParseOptions),
        parsedRows content opts =
          (processLines content opts).map
            (parseCSVLine (resolvedDelimiter content opts)) ∧
        (parsedRows content opts).length = (processLines content opts).length) := by
  have hlen : ∀ (d : Char) (line : List Char), 1 ≤ (parseCSVLine d line).length := by
    intro d line
    obtain ⟨f, hf, hne⟩ := aux_shape d line.length line le_rfl [] [] false
    rw [parseCSVLine, hf]
    simpa using List.length_pos.mpr hne
  refine ⟨hlen, ?_, ?_⟩
  · intro d
    rw [parseCSVLine, aux_nil]
    simp [trimL]
  · intro content opts
    have hkeep :
        ∀ r ∈ (processLines content opts).map
          (parseCSVLine (resolvedDelimiter content opts)), (!r.isEmpty) = true := by
      intro r hr
      obtain ⟨l, _, rfl⟩ := List.mem_map.mp hr
      have h1 := hlen (resolvedDelimiter content opts) l
      simp only [Bool.not_eq_true', List.isEmpty_eq_false]
      intro hemp
      rw [hemp] at h1
      simp at h1
    have hmapeq : parsedRows content opts =
        (processLines content opts).map
          (parseCSVLine (resolvedDelimiter content opts)) := by
      rw [parsedRows]
      exact List.filter_eq_self.mpr hkeep
    exact ⟨hmapeq, by rw [hmapeq, List.length_map]⟩

/-! ## Claim C8 -/

/-- Packaging of the detector claim's conclusion, given the facts established
in each leaf of the case analysis. -/
theorem detector_leaf (content : List Char) (best : Char)
    (hbest : detectDelimiter content = best)
    (hmem : best ∈ delimCandidates)
    (hmax : ∀ c ∈ delimCandidates,
      (firstLine content).count c ≤ (firstLine content).count best)
    (hfirst : ∀ c ∈ delimCandidates,
      (firstLine content).count c = (firstLine content).count best →
        candIdx best ≤ candIdx c) :
    detectDelimiter content ∈ delimCandidates ∧
    (∀ c ∈ delimCandidates,
        (firstLine content).count c ≤
          (firstLine content).count (detectDelimiter content)) ∧
    (∀ c ∈ delimCandidates,
        (firstLine content).count c =
            (firstLine content).count (detectDelimiter content) →
          candIdx (detectDelimiter content) ≤ candIdx c) ∧
    ((∀ c ∈ delimCandidates, (firstLine content).count c = 0) →
        detectDelimiter content = ',') ∧
    detectDelimiter ("a;b;c,d".toList) = ';' := by
  refine ⟨hbest ▸ hmem, ?_, ?_, ?_, by decide⟩
  · intro c hc
    rw [hbest]
    exact hmax c hc
  · intro c hc h
    rw [hbest]
    refine hfirst c hc ?_
    rw [← hbest]
    exact h
  · intro hz
    have hz1 : (firstLine content).count ',' = 0 := hz ',' (by decide)
    have hzb : (firstLine content).count best = 0 := hz best hmem
    have hle := hfirst ',' (by decide) (by rw [hz1, hzb])
    rw [hbest]
    revert hle
    fin_cases hmem <;> simp [candIdx]

/-- C8: for every input text the detector returns the candidate from
`{',', ';', tab, '|'}` whose literal occurrence count in the first line only
is highest (quoting ignored); ties go to the earliest candidate in that fixed
iteration order, and when all four counts are zero the default is `','`
(which is also what the tie-break gives, `','` being first). -/
theorem claim_C8_detector (content : List Char) :
    detectDelimiter content ∈ delimCandidates ∧
    (∀ c ∈ delimCandidates,
        (firstLine content).count c ≤
          (firstLine content).count (detectDelimiter content)) ∧
    (∀ c ∈ delimCandidates,
        (firstLine content).count c =
            (firstLine content).count (detectDelimiter content) →
          candIdx (detectDelimiter content) ≤ candIdx c) ∧
    ((∀ c ∈ delimCandidates, (firstLine content).count c = 0) →
        detectDelimiter content = ',') ∧
    detectDelimiter ("a;b;c,d".toList) = ';' := by
  have h1 : detectStep (firstLine content) ((','), 0) ',' =
      ((','), (firstLine content).count ',') := by
    by_cases h : 0 < (firstLine content).count ','
    · simp [detectStep, h]
    · simp [detectStep, h]
      omega
  have hchain : detectDelimiter content =
      (detectStep (firstLine content)
        (detectStep (firstLine content)
          (detectStep (firstLine content)
            ((','), (firstLine content).count ',') ';') '\t') '|').1 := by
    unfold detectDelimiter delimCandidates
    simp only [List.foldl_cons, List.foldl_nil]
    rw [h1]
  by_cases h2 : (firstLine content).count ',' < (firstLine content).count ';'
  · rw [show detectStep (firstLine content)
        ((','), (firstLine content).count ',') ';' =
          ((';'), (firstLine content).count ';') by simp [detectStep, h2]] at hchain
    by_cases h3 : (firstLine content).count ';' < (firstLine content).count '\t'
    · rw [show detectStep (firstLine content)
          ((';'), (firstLine content).count ';') '\t' =
            (('\t'), (firstLine content).count '\t') by simp [detectStep, h3]] at hchain
      by_cases h4 : (firstLine content).count '\t' < (firstLine content).count '|'
      · rw [show detectStep (firstLine content)
            (('\t'), (firstLine content).count '\t') '|' =
              (('|'), (firstLine content).count '|') by simp [detectStep, h4]] at hchain
        refine detector_leaf content '|' hchain (by decide) ?_ ?_
        · intro c hc
          simp only [delimCandidates] at hc
          fin_cases hc <;> omega
        · intro c hc h
          simp only [delimCandidates] at hc
          fin_cases hc <;> first | decide | omega
      · rw [show detectStep (firstLine content)
            (('\t'), (firstLine content).count '\t') '|' =
              (('\t'), (firstLine content).count '\t') by simp [detectStep, h4]] at hchain
        refine detector_leaf content '\t' hchain (by decide) ?_ ?_
        · intro c hc
          simp only [delimCandidates] at hc
          fin_cases hc <;> omega
        · intro c hc h
          simp only [delimCandidates] at hc
          fin_cases hc <;> first | decide | omega
    · rw [show detectStep (firstLine content)
          ((';'), (firstLine content).count ';') '\t' =
            ((';'), (firstLine content).count ';') by simp [detectStep, h3]] at hchain
      by_cases h4 : (firstLine content).count ';' < (firstLine content).count '|'
      · rw [show detectStep (firstLine content)
            ((';'), (firstLine content).count ';') '|' =
              (('|'), (firstLine content).count '|') by simp [detectStep, h4]] at hchain
        refine detector_leaf content '|' hchain (by decide) ?_ ?_
        · intro c hc
          simp only [delimCandidates] at hc
          fin_cases hc <;> omega
        · intro c hc h
          simp only [delimCandidates] at hc
          fin_cases hc <;> first | decide | omega
      · rw [show detectStep (firstLine content)
            ((';'), (firstLine content).count ';') '|' =
              ((';'), (firstLine content).count ';') by simp [detectStep, h4]] at hchain
        refine detector_leaf content ';' hchain (by decide) ?_ ?_
        · intro c hc
          simp only [delimCandidates] at hc
          fin_cases hc <;> omega
        · intro c hc h
          simp only [delimCandidates] at hc
          fin_cases hc <;> first | decide | omega
  · rw [show detectStep (firstLine content)
        ((','), (firstLine content).count ',') ';' =
          ((','), (firstLine content).count ',') by simp [detectStep, h2]] at hchain
    by_cases h3 : (firstLine content).count ',' < (firstLine content).count '\t'
    · rw [show detectStep (firstLine content)
          ((','), (firstLine content).count ',') '\t' =
            (('\t'), (firstLine content).count '\t') by simp [detectStep, h3]] at hchain
      by_cases h4 : (firstLine content).count '\t' < (firstLine content).count '|'
      · rw [show detectStep (firstLine content)
            (('\t'), (firstLine content).count '\t') '|' =
              (('|'), (firstLine content).count '|') by simp [detectStep, h4]] at hchain
        refine detector_leaf content '|' hchain (by decide) ?_ ?_
        · intro c hc
          simp only [delimCandidates] at hc
          fin_cases hc <;> omega
        · intro c hc h
          simp only [delimCandidates] at hc
          fin_cases hc <;> first | decide | omega
      · rw [show detectStep (firstLine content)
            (('\t'), (firstLine content).count '\t') '|' =
              (('\t'), (firstLine content).count '\t') by simp [detectStep, h4]] at hchain
        refine detector_leaf content '\t' hchain (by decide) ?_ ?_
        · intro c hc
          simp only [delimCandidates] at hc
          fin_cases hc <;> omega
        · intro c hc h
          simp only [delimCandidates] at hc
          fin_cases hc <;> first | decide | omega
    · rw [show detectStep (firstLine content)
          ((','), (firstLine content).count ',') '\t' =
            ((','), (firstLine content).count ',') by simp [detectStep, h3]] at hchain
      by_cases h4 : (firstLine content).count ',' < (firstLine content).count '|'
      · rw [show detectStep (firstLine content)
            ((','), (firstLine content).count ',') '|' =
              (('|'), (firstLine content).count '|') by simp [detectStep, h4]] at hchain
        refine detector_leaf content '|' hchain (by decide) ?_ ?_
        · intro c hc
          simp only [delimCandidates] at hc
          fin_cases hc <;> omega
        · intro c hc h
          simp only [delimCandidates] at hc
          fin_cases hc <;> first | decide | omega
      · rw [show detectStep (firstLine content)
            ((','), (firstLine content).count ',') '|' =
              ((','), (firstLine content).count ',') by simp [detectStep, h4]] at hchain
        refine detector_leaf content ',' hchain (by decide) ?_ ?_
        · intro c hc
          simp only [delimCandidates] at hc
          fin_cases hc <;> omega
        · intro c hc h
          simp only [delimCandidates] at hc
          fin_cases hc <;> first | decide | omega

theorem claim_C8_witness :
    detectDelimiter ("a;b;c,d".toList) ∈ delimCandidates ∧
    ("a;b;c,d".toList.takeWhile (fun c => !(c == '\n'))).count ',' ≤
      ("a;b;c,d".toList.takeWhile (fun c => !(c == '\n'))).count
        (detectDelimiter ("a;b;c,d".toList)) := by
  obtain ⟨hmem, hmax, _, _, _⟩ := claim_C8_detector ("a;b;c,d".toList)
  exact ⟨hmem, hmax ',' (by decide)⟩

/-! ## Claim C2 -/

/-- C2 (counterexample): the claim's "with NONE (default)" clause fails — when
`headerHandling` is omitted the source defaults it to `'use'`, so on
`"h1,h2\n1,2"` the first parsed row becomes `headers` instead of all rows
being data rows with `headers` absent. -/
theorem claim_C2_counterexample :
    (parseCSVContent ("h1,h2\n1,2".toList) ⟨none, none, none, none, false⟩).headers =
      some ["h1".toList, "h2".toList] ∧
    (parseCSVContent ("h1,h2\n1,2".toList) ⟨none, none, none, none, false⟩).rows =
      [["1".toList, "2".toList]] := by
  decide

/-- C2 (amended): with headerMode USE and a non-empty parsed row set,
`headers` equals the first parsed row and the data rows are the remaining
rows; with SKIP the first parsed row is discarded and `headers` is absent;
with an explicit NONE (any mode other than `'use'`/`'skip'`) all parsed rows
are data rows and `headers` is absent; when the mode is omitted the source
defaults to USE (not NONE), as the first clause states; and `sheetData`
equals `[headers] ++ dataRows` when headers are present and non-empty, else
exactly the data rows. -/
theorem claim_C2_header_modes (content : List Char) (opts : ParseOptions) :
    ((opts.headerHandling = some ("use") ∨ opts.headerHandling = none) →
      ∀ r t, parsedRows content opts = r :: t →
        (parseCSVContent content opts).headers = some r ∧
        (parseCSVContent content opts).rows = t) ∧
    (opts.headerHandling = some ("skip") →
      ∀ r t, parsedRows content opts = r :: t →
        (parseCSVContent content opts).headers = none ∧
        (parseCSVContent content opts).rows = t) ∧
    (∀ s : String, opts.headerHandling = some s → s ≠ "use" → s ≠ "skip" →
      (parseCSVContent content opts).headers = none ∧
      (parseCSVContent content opts).rows = parsedRows content opts) ∧
    ((parseCSVContent content opts).headers = none →
      (parseCSVContent content opts).sheetData =
        (parseCSVContent content opts).rows) ∧
    (∀ h, (parseCSVContent content opts).headers = some h → 0 < h.length →
      (parseCSVContent content opts).sheetData =
        h :: (parseCSVContent content opts).rows) := by
  refine ⟨?_, ?_, ?_, ?_, ?_⟩
  · intro hmode r t hrows
    have hget : opts.headerHandling.getD "use" = "use" := by
      rcases hmode with h | h <;> simp [h]
    simp [parseCSVContent, headersOf, dataRowsOf, hget, hrows]
  · intro hmode r t hrows
    simp [parseCSVContent, headersOf, dataRowsOf, hmode, hrows]
  · intro s hs hu hk
    simp [parseCSVContent, headersOf, dataRowsOf, hs, hu, hk]
  · intro hnone
    simp only [parseCSVContent] at hnone ⊢
    simp [sheetDataOf, hnone]
  · intro h hsome hlen
    simp only [parseCSVContent] at hsome ⊢
    simp [sheetDataOf, hsome, hlen]

theorem claim_C2_witness :
    (parseCSVContent ("h1,h2\n1,2\n3,4".toList)
        ⟨none, some ("use"), none, none, false⟩).headers =
      some ["h1".toList, "h2".toList] ∧
    (parseCSVContent ("h1,h2\n1,2\n3,4".toList)
        ⟨none, some ("skip"), none, none, false⟩).headers = none ∧
    (parseCSVContent ("h1,h2\n1,2\n3,4".toList)
        ⟨none, some ("skip"), none, none, false⟩).rows =
      [["1".toList, "2".toList], ["3".toList, "4".toList]] :=
  ⟨((claim_C2_header_modes ("h1,h2\n1,2\n3,4".toList)
      ⟨none, some ("use"), none, none, false⟩).1 (Or.inl rfl)
      (["h1".toList, "h2".toList])
      ([["1".toList, "2".toList], ["3".toList, "4".toList]]) (by decide)).1,
   ((claim_C2_header_modes ("h1,h2\n1,2\n3,4".toList)
      ⟨none, some ("skip"), none, none, false⟩).2.1 rfl
      (["h1".toList, "h2".toList])
      ([["1".toList, "2".toList], ["3".toList, "4".toList]]) (by decide)).1,
   ((claim_C2_header_modes ("h1,h2\n1,2\n3,4".toList)
      ⟨none, some ("skip"), none, none, false⟩).2.1 rfl
      (["h1".toList, "h2".toList])
      ([["1".toList, "2".toList], ["3".toList, "4".toList]]) (by decide)).2⟩

/-! ## Claim C3 -/

/-- C3 (counterexample): on input that is empty after sanitization and line
filtering, `parseCSVContent` returns a SUCCESS result carrying zero rows —
it does not return a "no data found" failure value. -/
theorem claim_C3_counterexample :
    (parseCSVContent [] defaultOpts).success = true ∧
    (parseCSVContent [] defaultOpts).rows = [] ∧
    (parseCSVContent [] defaultOpts).sheetData = [] := by
  decide

/-- C3 (amended): the Parser itself never throws and always returns a
success-tagged result; on input whose retained line set is empty the result
carries an empty `sheetData`, and it is the upload handler
(`handleCompleteUpload`) that turns the empty `sheetData` into the
"No data found in CSV file" client-error reply (HTTP 400). -/
theorem claim_C3_empty_input (content : List Char) (opts : ParseOptions) :
    (parseCSVContent content opts).success = true ∧
    (retainedLines content opts = [] →
      (parseCSVContent content opts).sheetData = [] ∧
      completeUploadNoData (parseCSVContent content opts) =
        some ((400), "No data found in CSV file")) := by
  constructor
  · simp [parseCSVContent]
  · intro hempty
    have hrows : parsedRows content opts = [] := by
      simp [parsedRows, processLines, hempty]
    have hsheet : (parseCSVContent content opts).sheetData = [] := by
      simp [parseCSVContent, sheetDataOf, headersOf, dataRowsOf, hrows]
    exact ⟨hsheet, by simp [completeUploadNoData, hsheet]⟩

theorem claim_C3_witness :
    (parseCSVContent [] defaultOpts).success = true ∧
    completeUploadNoData (parseCSVContent [] defaultOpts) =
      some ((400), "No data found in CSV file") :=
  ⟨(claim_C3_empty_input [] defaultOpts).1,
   ((claim_C3_empty_input [] defaultOpts).2 (by decide)).2⟩

/-! ## Claim C4 -/

/-- C4: on a 15-line preview parse with the default (`'use'`) header mode,
`csv-api.js` tokenizes only the first 11 retained lines as specified, but the
`totalRows` it reports is the capped preview data-row count 10, not the
specified full count 15 - 1 = 14 — even though it computes exactly that value
into its dead local `totalDataRows`.  The `part_007` variant of
`parseCSVContent` reports 14, and in general reports the unrestricted line
count minus the header adjustment whenever `isPreview` is set. -/
theorem claim_C4_preview_total :
    ((parseCSVContent ("x\nx\nx\nx\nx\nx\nx\nx\nx\nx\nx\nx\nx\nx\nx".toList)
        ⟨none, none, none, none, true⟩).totalRows = 10 ∧
      ((retainedLines ("x\nx\nx\nx\nx\nx\nx\nx\nx\nx\nx\nx\nx\nx\nx".toList)
          ⟨none, none, none, none, true⟩).length : Int) - 1 = 14 ∧
      (parseCSVContentV7 ("x\nx\nx\nx\nx\nx\nx\nx\nx\nx\nx\nx\nx\nx\nx".toList)
        ⟨none, none, none, none, true⟩).totalRows = 14) ∧
    (∀ (content : List Char) (opts : ParseOptions), opts.isPreview = true →
      (parseCSVContentV7 content opts).totalRows =
        (if opts.headerHandling.getD "use" = "use" then
          ((retainedLines content opts).length : Int) - 1
        else ((retainedLines content opts).length : Int))) := by
  constructor
  · exact ⟨by decide, by decide, by decide⟩
  · intro content opts hprev
    simp [parseCSVContentV7, hprev]

theorem claim_C4_witness :
    (parseCSVContentV7 ("a,b\n1,2\n3,4".toList)
        ⟨none, none, none, none, true⟩).totalRows =
      ((retainedLines ("a,b\n1,2\n3,4".toList)
          ⟨none, none, none, none, true⟩).length : Int) - 1 := by
  have h := (claim_C4_preview_total).2 ("a,b\n1,2\n3,4".toList)
    ⟨none, none, none, none, true⟩ rfl
  simpa using h

/-! ## Claim C1 -/

/-- C1 (counterexample): a 403 from the spreadsheet-metadata fetch (token
introspection succeeding) does NOT set the auth-expired flag — the writer
returns the generic "Cannot access spreadsheet" failure and the handler
replies 400 without the reauthentication signal, contradicting the claim that
every remote 401/403 maps to AUTH_EXPIRED. -/
theorem claim_C1_counterexample :
    (uploadToGoogleSheets ([[['a']]]) ⟨200, 403, 200, 200, ""⟩).authExpired = false ∧
    (uploadToGoogleSheets ([[['a']]]) ⟨200, 403, 200, 200, ""⟩).success = false ∧
    (uploadToGoogleSheets ([[['a']]]) ⟨200, 403, 200, 200, ""⟩).error =
      some ("Cannot access spreadsheet. Check permissions.") ∧
    completeUploadRespond (uploadToGoogleSheets ([[['a']]]) ⟨200, 403, 200, 200, ""⟩) =
      ((400), false) := by
  decide

/-- C1 (amended): only the token-introspection call controls the auth-expired
flag in `uploadToGoogleSheets`: any non-2xx introspection status (401 and 403
included) yields `authExpired` and the 401 needs-reauth reply, while a
401/403 (or any other failure) from the spreadsheet-metadata fetch or from
the write call leaves `authExpired` unset and is reported as a generic 400
failure. -/
theorem claim_C1_auth_classification (rows : List (List (List Char)))
    (env : UploadEnv) (hrows : rows ≠ []) :
    (httpOk env.userinfoStatus = false →
      (uploadToGoogleSheets rows env).authExpired = true ∧
      completeUploadRespond (uploadToGoogleSheets rows env) = ((401), true)) ∧
    (httpOk env.userinfoStatus = true →
      (uploadToGoogleSheets rows env).authExpired = false ∧
      ((uploadToGoogleSheets rows env).success = false →
        completeUploadRespond (uploadToGoogleSheets rows env) = ((400), false))) := by
  have hne : rows.isEmpty = false := by
    cases rows
    · exact absurd rfl hrows
    · rfl
  constructor
  · intro hfail
    simp [uploadToGoogleSheets, hne, hfail, completeUploadRespond]
  · intro hok
    by_cases hs : httpOk env.spreadsheetStatus
    · by_cases hw : httpOk env.writeStatus
      · simp [uploadToGoogleSheets, hne, hok, hs, hw, completeUploadRespond]
      · simp [uploadToGoogleSheets, hne, hok, hs, hw, completeUploadRespond]
    · simp [uploadToGoogleSheets, hne, hok, hs, completeUploadRespond]

theorem claim_C1_witness :
    (uploadToGoogleSheets ([[['a']]]) ⟨401, 200, 200, 200, ""⟩).authExpired = true ∧
    completeUploadRespond (uploadToGoogleSheets ([[['a']]]) ⟨401, 200, 200, 200, ""⟩) =
      ((401), true) :=
  (claim_C1_auth_classification ([[['a']]]) ⟨401, 200, 200, 200, ""⟩
    (by decide)).1 (by decide)

/-! ## Claim C5 -/

/-- C5 (counterexample): the create-tab handler always requests a fixed
1000-row by 26-column grid, so for sheet data with 1500 rows the created tab
is not "sized to fit" it: the claim's sizing clause fails on the code. -/
theorem claim_C5_counterexample :
    (handleCreateTab ("Data".toList)
        ⟨true, ["Sheet1".toList], 200, false⟩).requestedGrid = some ⟨1000, 26⟩ ∧
    ¬ gridFitsData ⟨1000, 26⟩ (List.replicate 1500 [['x']]) := by
  constructor
  · decide
  · intro hfit
    have h1 := hfit.1
    rw [List.length_replicate] at h1
    exact absurd h1 (by decide)

/-- C5 (amended): when the tab listing succeeds, a requested name matching an
existing tab title under case-insensitive comparison is answered 409 CONFLICT
before the creation call is attempted; otherwise the handler issues the
creation call with a fixed 1000-row by 26-column grid regardless of any data
size (the creation endpoint receives no sheet data and performs no write). -/
theorem claim_C5_create_tab (tabName : List Char) (env : CreateTabEnv)
    (hlist : env.listOk = true) (hname : trimL tabName ≠ []) :
    ((∃ t ∈ env.existingTitles, lowerL t = lowerL (trimL tabName)) →
      handleCreateTab tabName env =
        { status := 409, needsReauth := false, createAttempted := false
          requestedGrid := none }) ∧
    ((∀ t ∈ env.existingTitles, lowerL t ≠ lowerL (trimL tabName)) →
      (handleCreateTab tabName env).createAttempted = true ∧
      (handleCreateTab tabName env).requestedGrid = some ⟨1000, 26⟩) := by
  have hempty : (trimL tabName).isEmpty = false := by
    cases htn : trimL tabName
    · exact absurd htn hname
    · rfl
  constructor
  · rintro ⟨t, ht, heq⟩
    have hany : env.existingTitles.any
        (fun t => lowerL t == lowerL (trimL tabName)) = true := by
      rw [List.any_eq_true]
      exact ⟨t, ht, by simp [heq]⟩
    simp [handleCreateTab, hempty, hlist, hany]
  · intro hall
    have hany : env.existingTitles.any
        (fun t => lowerL t == lowerL (trimL tabName)) = false := by
      rw [Bool.eq_false_iff]
      intro hsome
      obtain ⟨t, ht, heq⟩ := List.any_eq_true.mp hsome
      exact hall t ht (by simpa using heq)
    simp [handleCreateTab, hempty, hlist, hany]
    split_ifs <;> simp

/-! ## Claim C9 — sanitizer lemmas

The `file:///` scanner is characterized in two universal statements:
a text without the marker passes through unchanged, and a text of the shape
`A ++ "file:///" ++ T ++ B` (with `A` marker-free, `T` the maximal token and
`B` empty or starting at a stop character) loses exactly the marker and its
token. -/

theorem length_dropWhile_le (p : Char → Bool) (l : List Char) :
    (l.dropWhile p).length ≤ l.length :=
  (l.dropWhile_suffix p).length_le

theorem rmFileF_fuel :
    ∀ (n m : Nat) (l : List Char), l.length ≤ n → l.length ≤ m →
      rmFileF n l = rmFileF m l := by
  intro n
  induction n with
  | zero =>
    intro m l hn _
    have hnil : l = [] := List.length_eq_zero.mp (Nat.le_zero.mp hn)
    subst hnil
    cases m <;> rfl
  | succ n ih =>
    intro m l hn hm
    cases l with
    | nil => cases m <;> rfl
    | cons c r =>
      cases m with
      | zero => simp at hm
      | succ m =>
        have hr : r.length ≤ n := by
          simp at hn
          omega
        have hrm : r.length ≤ m := by
          simp at hm
          omega
        by_cases hpre : fileMarker.isPrefixOf (c :: r) = true
        · simp only [rmFileF, hpre, if_true]
          apply ih
          · exact le_trans (length_dropWhile_le _ _)
              (le_trans (by rw [List.length_drop]; omega) hr)
          · exact le_trans (length_dropWhile_le _ _)
              (le_trans (by rw [List.length_drop]; omega) hrm)
        · rw [Bool.not_eq_true] at hpre
          simp only [rmFileF, hpre]
          simp [ih m r hr hrm]

theorem rmFile_fuel (l : List Char) (n : Nat) (h : l.length ≤ n) :
    rmFile l = rmFileF n l :=
  rmFileF_fuel l.length n l le_rfl h

theorem rmFile_cons_neg (c : Char) (r : List Char)
    (h : fileMarker.isPrefixOf (c :: r) = false) :
    rmFile (c :: r) = c :: rmFile r := by
  rw [rmFile, List.length_cons]
  simp only [rmFileF, h, if_false]
  rfl

theorem rmFile_cons_pos (c : Char) (r : List Char)
    (h : fileMarker.isPrefixOf (c :: r) = true) :
    rmFile (c :: r) = rmFile ((r.drop 7).dropWhile (fun x => !stopChar x)) := by
  rw [rmFile, List.length_cons]
  simp only [rmFileF, h, if_true]
  refine (rmFile_fuel _ r.length ?_).symm
  exact le_trans (length_dropWhile_le _ _) (by rw [List.length_drop]; omega)

theorem hasMarker_cons (c : Char) (r : List Char) :
    hasMarker (c :: r) = (fileMarker.isPrefixOf (c :: r) || hasMarker r) := by
  simp [hasMarker, List.tails_cons]

theorem hasMarker_of_isPrefixOf (l : List Char)
    (h : fileMarker.isPrefixOf l = true) : hasMarker l = true := by
  rw [hasMarker, List.any_eq_true]
  exact ⟨l, (List.mem_tails l l).mpr List.suffix_rfl, h⟩

theorem fileMarker_no_border :
    ∀ k : Nat, 0 < k → k < 8 → fileMarker.drop k ≠ fileMarker.take (8 - k) := by
  intro k h1 h2
  interval_cases k <;> decide

/-- No occurrence of the marker can straddle the boundary between a
marker-free prefix `A` and an explicit marker following it. -/
theorem marker_not_prefix_straddle (A rest : List Char)
    (hA : hasMarker A = false) (hne : A ≠ []) :
    fileMarker.isPrefixOf (A ++ (fileMarker ++ rest)) = false := by
  by_contra hcon
  rw [Bool.not_eq_false] at hcon
  have hpre : fileMarker <+: A ++ (fileMarker ++ rest) :=
    List.isPrefixOf_iff_prefix.mp hcon
  have htake : fileMarker = (A ++ (fileMarker ++ rest)).take 8 := by
    have := List.prefix_iff_eq_take.mp hpre
    simpa using this
  by_cases hlen : 8 ≤ A.length
  · have htake2 : (A ++ (fileMarker ++ rest)).take 8 = A.take 8 := by
      rw [List.take_append_eq_append_take]
      have : 8 - A.length = 0 := by omega
      rw [this]
      simp
    have hpreA : fileMarker <+: A := by
      rw [htake2] at htake
      rw [htake]
      exact List.take_prefix 8 A
    have := hasMarker_of_isPrefixOf A (List.isPrefixOf_iff_prefix.mpr hpreA)
    rw [hA] at this
    exact Bool.noConfusion this
  · have hAlt : A.length < 8 := by omega
    have hApos : 0 < A.length := List.length_pos.mpr hne
    have htake3 : (A ++ (fileMarker ++ rest)).take 8 =
        A ++ fileMarker.take (8 - A.length) := by
      rw [List.take_append_eq_append_take]
      congr 1
      · exact List.take_of_length_le (by omega)
      · rw [List.take_append_eq_append_take]
        have h8 : 8 - A.length - fileMarker.length = 0 := by
          have : fileMarker.length = 8 := rfl
          omega
        rw [h8]
        simp
    rw [htake3] at htake
    have hAeq : A = fileMarker.take A.length := by
      have := congrArg (List.take A.length) htake
      rw [List.take_append_eq_append_take] at this
      simp only [Nat.sub_self, List.take_zero, List.append_nil,
        List.take_of_length_le (le_refl A.length)] at this
      simpa using this.symm
    have hdropeq : fileMarker.drop A.length = fileMarker.take (8 - A.length) := by
      have := congrArg (List.drop A.length) htake
      rw [List.drop_append_eq_append_drop] at this
      simp only [Nat.sub_self, List.drop_zero,
        List.drop_of_length_le (le_refl A.length)] at this
      simpa using this
    exact fileMarker_no_border A.length hApos hAlt hdropeq

theorem dropWhile_append_all (p : Char → Bool) :
    ∀ (T B : List Char), (∀ c ∈ T, p c = true) →
      (T ++ B).dropWhile p = B.dropWhile p := by
  intro T
  induction T with
  | nil => simp
  | cons c t ih =>
    intro B h
    rw [List.cons_append, List.dropWhile_cons]
    rw [h c (List.mem_cons_self c t), if_pos rfl]
    exact ih B (fun x hx => h x (List.mem_cons_of_mem c hx))

/-- A marker-free text passes through the `file:///` scanner unchanged. -/
theorem rmFile_no_marker : ∀ (l : List Char), hasMarker l = false → rmFile l = l := by
  intro l
  induction l with
  | nil => intro _; rfl
  | cons c r ih =>
    intro h
    rw [hasMarker_cons, Bool.or_eq_false_iff] at h
    rw [rmFile_cons_neg c r h.1, ih h.2]

/-- The scanner removes exactly the marker and its token: everything in the
marker-free prefix `A` is preserved and scanning resumes at `B`. -/
theorem rmFile_removes :
    ∀ (A : List Char), hasMarker A = false →
      ∀ (T B : List Char), (∀ c ∈ T, stopChar c = false) →
        (∀ c, B.head? = some c → stopChar c = true) →
        rmFile (A ++ (fileMarker ++ (T ++ B))) = A ++ rmFile B := by
  intro A
  induction A with
  | nil =>
    intro _ T B hT hB
    simp only [List.nil_append]
    have hpre : fileMarker.isPrefixOf (fileMarker ++ (T ++ B)) = true :=
      List.isPrefixOf_iff_prefix.mpr (List.prefix_append _ _)
    rw [show fileMarker ++ (T ++ B) =
        'f' :: (['i', 'l', 'e', ':', '/', '/', '/'] ++ (T ++ B)) from rfl] at hpre ⊢
    rw [rmFile_cons_pos _ _ hpre]
    rw [show (7 : Nat) = (['i', 'l', 'e', ':', '/', '/', '/'] : List Char).length
      from rfl, List.drop_left]
    rw [dropWhile_append_all _ T B (by intro c hc; simp [hT c hc])]
    rw [dropWhile_eq_self_of_head _ B (by intro c hc; simp [hB c hc])]
  | cons a A ih =>
    intro hA T B hT hB
    rw [hasMarker_cons, Bool.or_eq_false_iff] at hA
    have hnopre : fileMarker.isPrefixOf
        ((a :: A) ++ (fileMarker ++ (T ++ B))) = false := by
      refine marker_not_prefix_straddle (a :: A) (T ++ B) ?_ (by simp)
      rw [hasMarker_cons, Bool.or_eq_false_iff]
      exact hA
    rw [List.cons_append] at hnopre
    rw [List.cons_append, rmFile_cons_neg _ _ hnopre, ih hA.2 T B hT hB,
      List.cons_append]

/-! ### Lemmas for the bare-URL line scanner -/

theorem rmUrlF_fuel :
    ∀ (n m : Nat) (l : List Char), l.length ≤ n → l.length ≤ m →
      rmUrlF n l = rmUrlF m l := by
  intro n
  induction n with
  | zero =>
    intro m l hn _
    have hnil : l = [] := List.length_eq_zero.mp (Nat.le_zero.mp hn)
    subst hnil
    cases m <;> rfl
  | succ n ih =>
    intro m l hn hm
    cases l with
    | nil => cases m <;> rfl
    | cons c r0 =>
      cases m with
      | zero => simp at hm
      | succ m =>
        simp only [rmUrlF]
        cases hdrop : (c :: r0).drop
            ((c :: r0).takeWhile (fun x => !lineTerm x)).length with
        | nil => rfl
        | cons t r =>
          have hlen := congrArg List.length hdrop
          rw [List.length_drop] at hlen
          simp only [List.length_cons] at hlen hn hm
          dsimp only
          rw [ih m r (by omega) (by omega)]

theorem rmUrl_fuel (l : List Char) (n : Nat) (h : l.length ≤ n) :
    rmUrl l = rmUrlF n l :=
  rmUrlF_fuel l.length n l le_rfl h

theorem takeWhile_append_stop (p : Char → Bool) :
    ∀ (seg : List Char) (t : Char) (r : List Char),
      (∀ c ∈ seg, p c = true) → p t = false →
      (seg ++ t :: r).takeWhile p = seg := by
  intro seg
  induction seg with
  | nil =>
    intro t r _ ht
    simp [List.takeWhile_cons, ht]
  | cons s ss ih =>
    intro t r h ht
    rw [List.cons_append, List.takeWhile_cons, h s (List.mem_cons_self s ss),
      if_pos rfl, ih t r (fun x hx => h x (List.mem_cons_of_mem s hx)) ht]

theorem takeWhile_all (p : Char → Bool) :
    ∀ (seg : List Char), (∀ c ∈ seg, p c = true) → seg.takeWhile p = seg := by
  intro seg
  induction seg with
  | nil => intro _; rfl
  | cons s ss ih =>
    intro h
    rw [List.takeWhile_cons, h s (List.mem_cons_self s ss), if_pos rfl,
      ih (fun x hx => h x (List.mem_cons_of_mem s hx))]

/-- A line-terminator-free segment followed by a terminator: the segment is
blanked exactly when it is entirely a bare URL, the terminator is preserved,
and scanning resumes after it. -/
theorem rmUrl_step (seg : List Char) (t : Char) (r : List Char)
    (hseg : ∀ c ∈ seg, lineTerm c = false) (ht : lineTerm t = true) :
    rmUrl (seg ++ t :: r) =
      (if isBareUrl seg then [] else seg) ++ t :: rmUrl r := by
  have hsegp : ∀ c ∈ seg, (fun x => !lineTerm x) c = true := by
    intro c hc
    simp [hseg c hc]
  have htp : (fun x => !lineTerm x) t = false := by simp [ht]
  cases seg with
  | nil =>
    rw [List.nil_append, rmUrl, List.length_cons]
    simp only [rmUrlF]
    rw [show (t :: r).takeWhile (fun x => !lineTerm x) = [] by
      simp [List.takeWhile_cons, htp]]
    simp only [List.length_nil, List.drop_zero]
    rw [← rmUrl_fuel r r.length le_rfl]
  | cons s ss =>
    rw [List.cons_append, rmUrl, List.length_cons]
    simp only [rmUrlF]
    have htw : (s :: (ss ++ t :: r)).takeWhile (fun x => !lineTerm x) = s :: ss := by
      have h0 := takeWhile_append_stop (fun x => !lineTerm x) (s :: ss) t r hsegp htp
      simpa using h0
    rw [htw]
    have hdr : (s :: (ss ++ t :: r)).drop (s :: ss).length = t :: r := by
      have h0 := List.drop_left (s :: ss) (t :: r)
      simpa using h0
    rw [hdr]
    dsimp only
    rw [← rmUrl_fuel r (ss ++ t :: r).length (by simp; omega)]

/-- A final line-terminator-free segment: blanked exactly when it is a bare
URL. -/
theorem rmUrl_last (seg : List Char)
    (hseg : ∀ c ∈ seg, lineTerm c = false) :
    rmUrl seg = if isBareUrl seg then [] else seg := by
  have hsegp : ∀ c ∈ seg, (fun x => !lineTerm x) c = true := by
    intro c hc
    simp [hseg c hc]
  cases seg with
  | nil => rfl
  | cons s ss =>
    rw [rmUrl, List.length_cons]
    simp only [rmUrlF]
    rw [takeWhile_all _ (s :: ss) hsegp, List.drop_length]

/-! ### Claim C9 -/

/-- C9: the sanitizer's `file:///` pass removes each `file:///` token up to
the next whitespace, comma or newline while preserving every other character
(`rmFile_removes` for texts containing a token, `rmFile_no_marker` for the
rest), and its URL pass removes a segment containing an `http://`/`https://`
URL exactly when the URL constitutes the entire line — a line that merely
contains a URL among other data is kept, terminators preserved.  The two
end-to-end evaluations run the full sanitizer on the spec's examples. -/
theorem claim_C9_sanitizer :
    (∀ (A : List Char), hasMarker A = false →
      ∀ (T B : List Char), (∀ c ∈ T, stopChar c = false) →
        (∀ c, B.head? = some c → stopChar c = true) →
        rmFile (A ++ (fileMarker ++ (T ++ B))) = A ++ rmFile B) ∧
    (∀ l : List Char, hasMarker l = false → rmFile l = l) ∧
    (∀ (seg : List Char) (t : Char) (r : List Char),
        (∀ c ∈ seg, lineTerm c = false) → lineTerm t = true →
        rmUrl (seg ++ t :: r) =
          (if isBareUrl seg then [] else seg) ++ t :: rmUrl r) ∧
    (∀ seg : List Char, (∀ c ∈ seg, lineTerm c = false) →
        rmUrl seg = if isBareUrl seg then [] else seg) ∧
    sanitizeCSVContent ("a,b,c file:///tmp/x.csv\nd,e".toList) =
      "a,b,c \nd,e".toList ∧
    sanitizeCSVContent ("a,1\nhttp://evil.example\nb,2".toList) =
      "a,1\nb,2".toList :=
  ⟨rmFile_removes, rmFile_no_marker, rmUrl_step, rmUrl_last, by decide, by decide⟩

theorem claim_C9_witness :
    rmFile ("x, ".toList ++ (fileMarker ++ ("tmp/a".toList ++ "\nrest".toList))) =
      "x, ".toList ++ rmFile ("\nrest".toList) ∧
    rmFile ("a,b\nc".toList) = "a,b\nc".toList ∧
    rmUrl ("http://x".toList ++ '\n' :: "b,2".toList) =
      (if isBareUrl ("http://x".toList) then [] else "http://x".toList) ++
        '\n' :: rmUrl ("b,2".toList) ∧
    rmUrl ("a,2".toList) =
      (if isBareUrl ("a,2".toList) then [] else "a,2".toList) :=
  ⟨claim_C9_sanitizer.1 ("x, ".toList) (by decide) ("tmp/a".toList)
      ("\nrest".toList) (by decide) (by decide),
   claim_C9_sanitizer.2.1 ("a,b\nc".toList) (by decide),
   claim_C9_sanitizer.2.2.1 ("http://x".toList) '\n' ("b,2".toList)
      (by decide) (by decide),
   claim_C9_sanitizer.2.2.2.1 ("a,2".toList) (by decide)⟩

theorem claim_C5_witness :
    handleCreateTab ("SHEET1".toList) ⟨true, ["Sheet1".toList], 200, false⟩ =
      { status := 409, needsReauth := false, createAttempted := false
        requestedGrid := none } ∧
    (handleCreateTab ("Data".toList)
        ⟨true, ["Sheet1".toList], 200, false⟩).createAttempted = true :=
  ⟨(claim_C5_create_tab ("SHEET1".toList) ⟨true, ["Sheet1".toList], 200, false⟩
      rfl (by decide)).1 ⟨"Sheet1".toList, by decide, by decide⟩,
   ((claim_C5_create_tab ("Data".toList) ⟨true, ["Sheet1".toList], 200, false⟩
      rfl (by decide)).2 (by decide)).1⟩

end CsvWizard
